import Mathlib

/-!
Shallow embedding of the `graceful` package (graceful shutdown manager):
`manager.go` (`Run`, the cleanup loop, error aggregation) and `options.go`
(`defaultOptions`, `WithTimeout`, `WithLogger`, `WithCleanup`, `WithCloser`,
`WithClosers`).

Modelling conventions:
- Go `error` values are `Option GoError` (`none` = `nil`).
- Go pointers / interface values that may be `nil` are `Option _`.
- Durations are `Nat` nanoseconds (`time.Second = 1000000000`).
- The cleanup context (`context.WithTimeout`) is modelled by `Ctx`, which
  records what `ctx.Err()` returns if/once its done channel is observed
  (`none` = the done channel never fires during the wait in question).
- The nondeterministic `select` race inside the closer adapter (goroutine
  running `Close()` vs. `ctx.Done()`) is resolved by an oracle bit stored in
  the `Closer` model (`closeFinishesFirst`).
- The cleanup loop additionally returns the trace of invoked cleaner
  indices (in invocation order) so that invocation order is observable.
-/

namespace Graceful

/-- Model of Go `error` values produced in this package.
`base` is an arbitrary opaque error (identified by its message);
`closerTimeout t e` is `fmt.Errorf("closer (%T) timed out: %w", c, ctx.Err())`
with `t` the rendering of `%T` and `e` the wrapped `ctx.Err()`;
`joined l` is the non-nil result of `errors.Join` on the non-nil errors `l`;
`nilCleanerInvoked` marks the (unreachable, see the nil-safety theorem)
runtime panic of calling a `nil` function value. -/
inductive GoError where
  | base : String → GoError
  | closerTimeout : String → GoError → GoError
  | joined : List GoError → GoError
  | nilCleanerInvoked : GoError

/-- Go `errors.Unwrap` on these values: the `fmt.Errorf` single-`%w` wrapper
unwraps to the wrapped error; other values have no single unwrap. -/
def GoError.unwrap : GoError → Option GoError
  | .closerTimeout _ e => some e
  | _ => none

/-- The `Error()` message of each modelled error value.  The wrapper message
follows the format string `"closer (%T) timed out: %w"`; `errors.Join`
renders its children separated by a newline. -/
def GoError.message : GoError → String
  | .base s => s
  | .closerTimeout t e => "closer (" ++ t ++ ") timed out: " ++ GoError.message e
  | .joined [] => ""
  | .joined [e] => GoError.message e
  | .joined (e :: e2 :: rest) =>
      GoError.message e ++ "\x0a" ++ GoError.message (.joined (e2 :: rest))
  | .nilCleanerInvoked => "runtime error: invalid memory address or nil pointer dereference"

/-- Go `errors.Join(errs...)`: drop the nil entries; if none remain the
result is nil, otherwise a single joined error holding the non-nil entries
in order. -/
def errorsJoin (errs : List (Option GoError)) : Option GoError :=
  let nonNil := errs.filterMap id
  if nonNil.isEmpty then none else some (GoError.joined nonNil)

/-- Abstract model of a `*slog.Logger` target (identity only). -/
structure SlogLogger where
  id : Nat
deriving DecidableEq

/-- `slog.Default()`: the process-wide default logger (a fixed non-nil
pointer). -/
def slogDefault : SlogLogger := ⟨0⟩

/-- Model of the cleanup context handed to every cleaner: `doneErr` is what
`ctx.Err()` returns once the done channel is observed, or `none` if the done
channel never fires while the cleaner in question waits. -/
structure Ctx where
  doneErr : Option GoError

/-- `type Cleaner func(ctx context.Context) error`. -/
def Cleaner := Ctx → Option GoError

/-- Calling a (possibly nil) Go function value of type `Cleaner`: a nil
function panics, modelled by the distinguished `nilCleanerInvoked` value
(shown unreachable for cleaner lists built through the options API). -/
def callCleaner (c : Option Cleaner) (ctx : Ctx) : Option GoError :=
  match c with
  | some f => f ctx
  | none => some GoError.nilCleanerInvoked

/-- Model of a (non-nil) `io.Closer` value: its dynamic type name (what `%T`
prints), the result of its `Close()` call, and the oracle resolving the
`select` race: `closeFinishesFirst = true` when the goroutine's
`done <- c.Close()` is received before `ctx.Done()` is observed. -/
structure Closer where
  typeName : String
  closeResult : Option GoError
  closeFinishesFirst : Bool

/-- The adapter cleaner built inside `WithCloser` (options.go lines 66-78):
race `Close()` against `ctx.Done()`; if `Close` wins return its result,
if the context's done signal wins return the wrapping timeout error. -/
def closerCleanerSingle (c : Closer) : Cleaner := fun ctx =>
  match ctx.doneErr with
  | none => c.closeResult
  | some e =>
      if c.closeFinishesFirst then c.closeResult
      else some (GoError.closerTimeout c.typeName e)

/-- The adapter cleaner built inside `WithClosers` (options.go lines
104-116); its body is textually identical to the one in `WithCloser`
(modulo the loop-variable copy), which the equivalence lemma below makes
formal. -/
def closerCleanerMulti (c : Closer) : Cleaner := fun ctx =>
  match ctx.doneErr with
  | none => c.closeResult
  | some e =>
      if c.closeFinishesFirst then c.closeResult
      else some (GoError.closerTimeout c.typeName e)

/-- `time.Second` in nanoseconds. -/
def timeSecond : Nat := 1000000000

/-- The `options` struct of options.go. The logger field is a pointer
(`Option`); the cleaner slice may in principle hold nil function values
(`Option Cleaner` entries), though the options API never appends one. -/
structure options where
  shutdownTimeout : Nat
  logger : Option SlogLogger
  cleaners : List (Option Cleaner)

/-- `defaultOptions()`: 30s shutdown timeout, the process default logger,
an empty cleaner list. -/
def defaultOptions : options :=
  { shutdownTimeout := 30 * timeSecond
    logger := some slogDefault
    cleaners := [] }

/-- The recognized option constructors of options.go (Go type `Option`,
a closure over `*options`): `WithTimeout`, `WithLogger`, `WithCleanup`,
`WithCloser`, `WithClosers`.  Interface/function/pointer arguments that can
be nil are `Option _`. -/
inductive Opt where
  | withTimeout (d : Nat)
  | withLogger (l : Option SlogLogger)
  | withCleanup (c : Option Cleaner)
  | withCloser (c : Option Closer)
  | withClosers (cs : List (Option Closer))

/-- The loop body of `WithClosers` (options.go lines 100-118): iterate the
variadic slice in order, skip nil entries, append one adapter cleaner per
non-nil entry. -/
def withClosersLoop (cs : List (Option Closer)) (o : options) : options :=
  match cs with
  | [] => o
  | c :: rest =>
      match c with
      | some closer =>
          withClosersLoop rest
            { o with cleaners := o.cleaners ++ [some (closerCleanerMulti closer)] }
      | none => withClosersLoop rest o

/-- Applying one option closure to the options struct, exactly as each
`With*` function in options.go mutates `*options`. -/
def applyOpt (opt : Opt) (o : options) : options :=
  match opt with
  | .withTimeout d => { o with shutdownTimeout := d }
  | .withLogger l =>
      match l with
      | some lg => { o with logger := some lg }
      | none => o
  | .withCleanup c =>
      match c with
      | some f => { o with cleaners := o.cleaners ++ [some f] }
      | none => o
  | .withCloser c =>
      match c with
      | some closer =>
          { o with cleaners := o.cleaners ++ [some (closerCleanerSingle closer)] }
      | none => o
  | .withClosers cs => withClosersLoop cs o

/-- The option-application loop at the top of `Run` (manager.go lines
25-28): start from the defaults and apply the supplied options in order. -/
def applyOpts (o : options) (opts : List Opt) : options :=
  opts.foldl (fun acc opt => applyOpt opt acc) o

/-- The cleanup loop of `Run` (manager.go lines 60-69):
`for i := len(o.cleaners) - 1; i >= 0; i--`, invoking each cleaner with the
shared shutdown context and appending each non-nil error, in run order, to
the collected list.  The first component is the trace of invoked indices in
invocation order; `cleanupLoop cs ctx n` performs the iterations for
indices `n-1, n-2, ..., 0`. -/
def cleanupLoop (cleaners : List (Option Cleaner)) (ctx : Ctx) :
    Nat → List Nat × List GoError
  | 0 => ([], [])
  | n + 1 =>
      let rest := cleanupLoop cleaners ctx n
      match cleaners[n]? with
      | none => rest
      | some c =>
          match callCleaner c ctx with
          | some e => (n :: rest.1, e :: rest.2)
          | none => (n :: rest.1, rest.2)

/-- The whole cleanup phase: run the loop over all registered cleaners. -/
def execCleaners (cleaners : List (Option Cleaner)) (ctx : Ctx) :
    List Nat × List GoError :=
  cleanupLoop cleaners ctx cleaners.length

/-- The pure core of `Run` (manager.go lines 24-81): build the options from
the defaults and the supplied option list, run the cleanup loop under the
shutdown context, then aggregate: if any cleanup error was collected,
prepend the task error (when non-nil) and return `errors.Join` of the list;
otherwise return the task's error unchanged.  The task is represented by
its outcome `taskErr` (the signal context and logging are side effects with
no bearing on the returned value); `sctx` models the fresh
`context.WithTimeout` cleanup context.  Returns the invocation trace
together with `Run`'s return value. -/
def run (taskErr : Option GoError) (opts : List Opt) (sctx : Ctx) :
    List Nat × Option GoError :=
  let o := applyOpts defaultOptions opts
  let res := execCleaners o.cleaners sctx
  let cleanupErrors := res.2
  if cleanupErrors.length > 0 then
    let all :=
      match taskErr with
      | some e => e :: cleanupErrors
      | none => cleanupErrors
    (res.1, errorsJoin (all.map some))
  else
    (res.1, taskErr)

/-! Specification-side helper functions, used to state what the option list
contributes to the final configuration (for the ordering/accumulation
claims).  These are written from the spec's description of each option
kind, to be compared with `applyOpts`. -/

/-- The cleaners a single option appends, per the spec's description of each
recognized option kind. -/
def optCleaners : Opt → List (Option Cleaner)
  | .withCleanup (some c) => [some c]
  | .withCloser (some c) => [some (closerCleanerSingle c)]
  | .withClosers cs => (cs.filterMap id).map (fun c => some (closerCleanerMulti c))
  | _ => []

/-- All cleaners an option list appends, in order. -/
def cleanersOf : List Opt → List (Option Cleaner)
  | [] => []
  | opt :: rest => optCleaners opt ++ cleanersOf rest

/-- The last timeout value supplied in an option list, if any. -/
def lastTimeoutOf : List Opt → Option Nat
  | [] => none
  | opt :: rest =>
      match lastTimeoutOf rest with
      | some d => some d
      | none =>
          match opt with
          | .withTimeout d => some d
          | _ => none

/-- The last non-nil logger supplied in an option list, if any. -/
def lastLoggerOf : List Opt → Option SlogLogger
  | [] => none
  | opt :: rest =>
      match lastLoggerOf rest with
      | some l => some l
      | none =>
          match opt with
          | .withLogger (some l) => some l
          | _ => none

/-! ### Helper lemmas -/

/-- The two textually identical adapter closures produce the same cleaner. -/
theorem closerCleanerMulti_eq_single : closerCleanerMulti = closerCleanerSingle := by
  funext c ctx
  rfl

/-- What the `WithClosers` loop does to the options struct: append one
adapter cleaner per non-nil entry, in order, leaving the other fields
untouched. -/
theorem withClosersLoop_spec (cs : List (Option Closer)) (o : options) :
    withClosersLoop cs o =
      { o with cleaners :=
          o.cleaners ++ (cs.filterMap id).map (fun c => some (closerCleanerMulti c)) } := by
  induction cs generalizing o with
  | nil => simp [withClosersLoop]
  | cons c rest ih =>
      cases c with
      | some closer => simp [withClosersLoop, ih, List.filterMap_cons]
      | none => simp [withClosersLoop, ih, List.filterMap_cons]

theorem applyOpt_cleaners (opt : Opt) (o : options) :
    (applyOpt opt o).cleaners = o.cleaners ++ optCleaners opt := by
  cases opt with
  | withTimeout d => simp [applyOpt, optCleaners]
  | withLogger l => cases l <;> simp [applyOpt, optCleaners]
  | withCleanup c => cases c <;> simp [applyOpt, optCleaners]
  | withCloser c => cases c <;> simp [applyOpt, optCleaners]
  | withClosers cs => simp [applyOpt, optCleaners, withClosersLoop_spec]

theorem applyOpt_shutdownTimeout (opt : Opt) (o : options) :
    (applyOpt opt o).shutdownTimeout =
      (match opt with
        | .withTimeout d => d
        | _ => o.shutdownTimeout) := by
  cases opt with
  | withTimeout d => rfl
  | withLogger l => cases l <;> rfl
  | withCleanup c => cases c <;> rfl
  | withCloser c => cases c <;> rfl
  | withClosers cs => simp [applyOpt, withClosersLoop_spec]

theorem applyOpt_logger (opt : Opt) (o : options) :
    (applyOpt opt o).logger =
      (match opt with
        | .withLogger (some l) => some l
        | _ => o.logger) := by
  cases opt with
  | withTimeout d => rfl
  | withLogger l => cases l <;> rfl
  | withCleanup c => cases c <;> rfl
  | withCloser c => cases c <;> rfl
  | withClosers cs => simp [applyOpt, withClosersLoop_spec]

theorem applyOpts_cleaners (opts : List Opt) (o : options) :
    (applyOpts o opts).cleaners = o.cleaners ++ cleanersOf opts := by
  induction opts generalizing o with
  | nil => simp [applyOpts, cleanersOf]
  | cons opt rest ih =>
      simp [applyOpts, List.foldl_cons, cleanersOf]
      rw [show (List.foldl (fun acc opt => applyOpt opt acc) (applyOpt opt o) rest)
            = applyOpts (applyOpt opt o) rest from rfl]
      rw [ih, applyOpt_cleaners, List.append_assoc]

theorem applyOpts_shutdownTimeout (opts : List Opt) (o : options) :
    (applyOpts o opts).shutdownTimeout =
      (lastTimeoutOf opts).getD o.shutdownTimeout := by
  induction opts generalizing o with
  | nil => simp [applyOpts, lastTimeoutOf]
  | cons opt rest ih =>
      rw [show applyOpts o (opt :: rest) = applyOpts (applyOpt opt o) rest from rfl]
      rw [ih]
      cases h : lastTimeoutOf rest with
      | some d => simp [lastTimeoutOf, h]
      | none =>
          cases opt with
          | withTimeout d => simp [lastTimeoutOf, h, applyOpt_shutdownTimeout]
          | withLogger l => cases l <;> simp [lastTimeoutOf, h, applyOpt_shutdownTimeout]
          | withCleanup c => cases c <;> simp [lastTimeoutOf, h, applyOpt_shutdownTimeout]
          | withCloser c => cases c <;> simp [lastTimeoutOf, h, applyOpt_shutdownTimeout]
          | withClosers cs => simp [lastTimeoutOf, h, applyOpt_shutdownTimeout]

theorem applyOpts_logger (opts : List Opt) (o : options) :
    (applyOpts o opts).logger =
      (match lastLoggerOf opts with
        | some l => some l
        | none => o.logger) := by
  induction opts generalizing o with
  | nil => simp [applyOpts, lastLoggerOf]
  | cons opt rest ih =>
      rw [show applyOpts o (opt :: rest) = applyOpts (applyOpt opt o) rest from rfl]
      rw [ih]
      cases h : lastLoggerOf rest with
      | some d => simp [lastLoggerOf, h]
      | none =>
          cases opt with
          | withTimeout d => simp [lastLoggerOf, h, applyOpt_logger]
          | withLogger l => cases l <;> simp [lastLoggerOf, h, applyOpt_logger]
          | withCleanup c => cases c <;> simp [lastLoggerOf, h, applyOpt_logger]
          | withCloser c => cases c <;> simp [lastLoggerOf, h, applyOpt_logger]
          | withClosers cs => simp [lastLoggerOf, h, applyOpt_logger]

/-- The trace of the cleanup loop over the first `n` indices: indices
`n-1, n-2, ..., 0`, each visited exactly once, in descending order. -/
theorem cleanupLoop_trace (cleaners : List (Option Cleaner)) (ctx : Ctx) (n : Nat)
    (hn : n ≤ cleaners.length) :
    (cleanupLoop cleaners ctx n).1 = (List.range n).reverse := by
  induction n with
  | zero => simp [cleanupLoop]
  | succ m ih =>
      have hm : m < cleaners.length := Nat.lt_of_lt_of_le (Nat.lt_succ_self m) hn
      have hget : cleaners[m]? = some cleaners[m] := List.getElem?_eq_getElem hm
      rw [List.range_succ, List.reverse_append]
      simp only [cleanupLoop, hget, List.reverse_singleton]
      rw [ih (Nat.le_of_lt hm)]
      cases h : callCleaner cleaners[m] ctx <;> simp

/-- The errors collected by the cleanup loop: exactly the non-nil results of
the invocations, in invocation (descending-index) order. -/
theorem cleanupLoop_errors (cleaners : List (Option Cleaner)) (ctx : Ctx) (n : Nat) :
    (cleanupLoop cleaners ctx n).2 =
      (List.range n).reverse.filterMap
        (fun i => (cleaners[i]?).bind (fun c => callCleaner c ctx)) := by
  induction n with
  | zero => simp [cleanupLoop]
  | succ m ih =>
      rw [List.range_succ, List.reverse_append]
      simp only [List.reverse_singleton, List.singleton_append, List.filterMap_cons]
      cases hget : cleaners[m]? with
      | none => simp [cleanupLoop, hget, ih]
      | some c =>
          simp only [cleanupLoop, hget, Option.some_bind]
          cases h : callCleaner c ctx <;> simp [h, ih]

/-- The first component returned by `run` is the cleanup invocation trace. -/
theorem run_fst (taskErr : Option GoError) (opts : List Opt) (sctx : Ctx) :
    (run taskErr opts sctx).1 =
      (execCleaners (applyOpts defaultOptions opts).cleaners sctx).1 := by
  unfold run
  by_cases h : (execCleaners (applyOpts defaultOptions opts).cleaners sctx).2.length > 0
  · simp [h]
  · simp [h]

/-- The cleanup trace of `run`: every registered index exactly once, in
descending (reverse-registration) order. -/
theorem run_trace (taskErr : Option GoError) (opts : List Opt) (sctx : Ctx) :
    (run taskErr opts sctx).1 =
      (List.range (applyOpts defaultOptions opts).cleaners.length).reverse := by
  rw [run_fst]
  exact cleanupLoop_trace _ sctx _ (Nat.le_refl _)

theorem errorsJoin_map_some (l : List GoError) (hl : l ≠ []) :
    errorsJoin (l.map some) = some (GoError.joined l) := by
  unfold errorsJoin
  have : (l.map some).filterMap id = l := by
    induction l with
    | nil => simp
    | cons e rest ih => simp [List.filterMap_cons, ih]
  simp [this, hl]

/-- The value returned by `run`, as a function of the task error and the
collected cleanup errors. -/
theorem run_snd (taskErr : Option GoError) (opts : List Opt) (sctx : Ctx) :
    (run taskErr opts sctx).2 =
      (if 0 < (execCleaners (applyOpts defaultOptions opts).cleaners sctx).2.length
        then some (GoError.joined
          (taskErr.toList ++ (execCleaners (applyOpts defaultOptions opts).cleaners sctx).2))
        else taskErr) := by
  unfold run
  cases hc : (execCleaners (applyOpts defaultOptions opts).cleaners sctx).2 with
  | nil => simp [hc]
  | cons e rest =>
      have hne : e :: rest ≠ ([] : List GoError) := by simp
      cases taskErr with
      | none =>
          simp [hc, Option.toList]
          exact errorsJoin_map_some _ hne
      | some te =>
          have hne2 : te :: e :: rest ≠ ([] : List GoError) := by simp
          simp [hc, Option.toList]
          exact errorsJoin_map_some _ hne2

theorem optCleaners_all_some (opt : Opt) (cp : Option Cleaner)
    (h : cp ∈ optCleaners opt) : cp ≠ none := by
  cases opt with
  | withTimeout d => simp [optCleaners] at h
  | withLogger l => simp [optCleaners] at h
  | withCleanup c =>
      cases c with
      | some f => simp [optCleaners] at h; simp [h]
      | none => simp [optCleaners] at h
  | withCloser c =>
      cases c with
      | some closer => simp [optCleaners] at h; simp [h]
      | none => simp [optCleaners] at h
  | withClosers cs =>
      simp [optCleaners] at h
      obtain ⟨closer, -, rfl⟩ := h
      simp

theorem cleanersOf_all_some (opts : List Opt) (cp : Option Cleaner)
    (h : cp ∈ cleanersOf opts) : cp ≠ none := by
  induction opts with
  | nil => simp [cleanersOf] at h
  | cons opt rest ih =>
      simp only [cleanersOf, List.mem_append] at h
      rcases h with h | h
      · exact optCleaners_all_some opt cp h
      · exact ih h

/-! ### Claim theorems -/

/-- C1: for every sequence of registered cleaners, `Run` invokes each
cleaner exactly once during the cleanup phase, and the invocation order is
exactly the reverse of the registration order (the trace of invoked
registration indices is `[n-1, ..., 1, 0]`).  Proved for every sequence,
which subsumes the claim's non-empty case. -/
theorem run_invokes_cleaners_lifo (taskErr : Option GoError) (opts : List Opt) (sctx : Ctx) :
    (run taskErr opts sctx).1 =
      (List.range (applyOpts defaultOptions opts).cleaners.length).reverse :=
  run_trace taskErr opts sctx

/-- C4: for every closable resource wrapped by the closer adapter, if the
cleanup context's done signal is observed before `Close` completes, the
cleaner returns a non-nil timeout error that wraps `ctx.Err()` and carries
the resource's dynamic type in its message; if `Close` completes first (or
the context never expires), the cleaner returns exactly `Close`'s result. -/
theorem withCloser_adapter_race (c : Closer) (sctx : Ctx) (e : GoError) :
    (sctx.doneErr = some e → c.closeFinishesFirst = false →
      closerCleanerSingle c sctx = some (GoError.closerTimeout c.typeName e) ∧
      (GoError.closerTimeout c.typeName e).unwrap = some e ∧
      (GoError.closerTimeout c.typeName e).message =
        "closer (" ++ c.typeName ++ ") timed out: " ++ e.message) ∧
    (c.closeFinishesFirst = true → closerCleanerSingle c sctx = c.closeResult) ∧
    (sctx.doneErr = none → closerCleanerSingle c sctx = c.closeResult) := by
  refine ⟨?_, ?_, ?_⟩
  · intro hd hf
    refine ⟨?_, rfl, ?_⟩
    · simp [closerCleanerSingle, hd, hf]
    · simp [GoError.message]
  · intro hf
    cases hd : sctx.doneErr <;> simp [closerCleanerSingle, hd, hf]
  · intro hd
    simp [closerCleanerSingle, hd]

/-- Witness for C4 at a concrete closer and context (both race outcomes). -/
theorem withCloser_adapter_race_witness :
    closerCleanerSingle ⟨"*sql.DB", some (GoError.base "close failed"), false⟩
        ⟨some (GoError.base "context deadline exceeded")⟩
      = some (GoError.closerTimeout "*sql.DB" (GoError.base "context deadline exceeded")) ∧
    closerCleanerSingle ⟨"*sql.DB", some (GoError.base "close failed"), true⟩
        ⟨some (GoError.base "context deadline exceeded")⟩
      = some (GoError.base "close failed") := by
  constructor
  · exact ((withCloser_adapter_race
      ⟨"*sql.DB", some (GoError.base "close failed"), false⟩
      ⟨some (GoError.base "context deadline exceeded")⟩
      (GoError.base "context deadline exceeded")).1 rfl rfl).1
  · exact (withCloser_adapter_race
      ⟨"*sql.DB", some (GoError.base "close failed"), true⟩
      ⟨some (GoError.base "context deadline exceeded")⟩
      (GoError.base "context deadline exceeded")).2.1 rfl

/-- C5: registering a sequence of closers with `WithClosers` yields exactly
the same options struct — same appended cleaners, same order, hence the same
LIFO execution and error aggregation — as successive `WithCloser` calls in
the same order. -/
theorem withClosers_equiv_individual (o : options) (cs : List (Option Closer)) :
    applyOpt (.withClosers cs) o = applyOpts o (cs.map Opt.withCloser) := by
  induction cs generalizing o with
  | nil => rfl
  | cons c rest ih =>
      cases c with
      | some closer =>
          have h1 : applyOpt (.withClosers (some closer :: rest)) o
              = applyOpt (.withClosers rest)
                  { o with cleaners := o.cleaners ++ [some (closerCleanerMulti closer)] } := rfl
          have h2 : applyOpts o ((some closer :: rest).map Opt.withCloser)
              = applyOpts
                  { o with cleaners := o.cleaners ++ [some (closerCleanerSingle closer)] }
                  (rest.map Opt.withCloser) := rfl
          rw [h1, h2, closerCleanerMulti_eq_single]
          exact ih _
      | none => exact ih o

/-- C7: nil entries in the sequence given to `WithClosers` are silently
skipped — no cleaner is registered for them, no error is produced (the
option cannot fail), and the non-nil entries are registered in their
original relative order, all other fields untouched. -/
theorem withClosers_skips_nil_entries (o : options) (cs : List (Option Closer)) :
    applyOpt (.withClosers cs) o =
      { o with cleaners :=
          o.cleaners ++ (cs.filterMap id).map (fun c => some (closerCleanerMulti c)) } :=
  withClosersLoop_spec cs o

/-- C8: with no options supplied, `Run` uses exactly the defaults: a 30
second shutdown timeout, the process-wide default logger, and an empty
cleaner list. -/
theorem run_no_options_uses_defaults :
    applyOpts defaultOptions [] = defaultOptions ∧
    defaultOptions.shutdownTimeout = 30 * timeSecond ∧
    timeSecond = 1000000000 ∧
    defaultOptions.logger = some slogDefault ∧
    defaultOptions.cleaners = [] :=
  ⟨rfl, rfl, rfl, rfl, rfl⟩

/-- C2: `Run` returns nil exactly when the task and every cleaner returned
nil; and whenever any cleanup error was collected, the returned value is a
single joined error holding the task's error (if any) first and then the
cleanup errors in the order the failing cleaners ran. -/
theorem run_aggregates_all_errors (taskErr : Option GoError) (opts : List Opt) (sctx : Ctx) :
    ((run taskErr opts sctx).2 = none ↔
      (taskErr = none ∧ (execCleaners (applyOpts defaultOptions opts).cleaners sctx).2 = [])) ∧
    ((execCleaners (applyOpts defaultOptions opts).cleaners sctx).2 ≠ [] →
      (run taskErr opts sctx).2 =
        some (GoError.joined
          (taskErr.toList ++ (execCleaners (applyOpts defaultOptions opts).cleaners sctx).2))) := by
  have h := run_snd taskErr opts sctx
  cases hc : (execCleaners (applyOpts defaultOptions opts).cleaners sctx).2 with
  | nil =>
      rw [hc] at h
      simp only [List.length_nil, Nat.lt_irrefl, if_neg (by omega : ¬ 0 < 0)] at h
      constructor
      · rw [h]; simp
      · intro hne; exact absurd rfl hne
  | cons a rest =>
      rw [hc] at h
      simp only [List.length_cons, if_pos (Nat.succ_pos rest.length)] at h
      constructor
      · rw [h]; simp
      · intro _; exact h

/-- Witness for C2: failing task plus one failing cleaner yields the joined
pair, task error first. -/
theorem run_aggregates_all_errors_witness :
    (run (some (GoError.base "boom"))
        [Opt.withCleanup (some (fun _ => some (GoError.base "cfail")))] ⟨none⟩).2
      = some (GoError.joined [GoError.base "boom", GoError.base "cfail"]) := by
  have hne : (execCleaners
      (applyOpts defaultOptions
        [Opt.withCleanup (some (fun _ => some (GoError.base "cfail")))]).cleaners
      ⟨none⟩).2 = [GoError.base "cfail"] := rfl
  have h := (run_aggregates_all_errors (some (GoError.base "boom"))
      [Opt.withCleanup (some (fun _ => some (GoError.base "cfail")))] ⟨none⟩).2
      (by rw [hne]; exact List.cons_ne_nil _ _)
  rw [hne] at h
  exact h

/-- C3: a cleaner failure neither skips nor aborts the others — every
registered index is still invoked — and every error a cleaner returns ends
up inside the joined aggregate `Run` returns. -/
theorem run_failure_isolation (taskErr : Option GoError) (opts : List Opt) (sctx : Ctx)
    (i : Nat) (e : GoError) :
    (i < (applyOpts defaultOptions opts).cleaners.length → i ∈ (run taskErr opts sctx).1) ∧
    ((((applyOpts defaultOptions opts).cleaners)[i]?).bind (fun c => callCleaner c sctx)
        = some e →
      ∃ l, (run taskErr opts sctx).2 = some (GoError.joined l) ∧ e ∈ l) := by
  constructor
  · intro hi
    rw [run_trace]
    simpa using hi
  · intro hbind
    have hi : i < (applyOpts defaultOptions opts).cleaners.length := by
      by_contra hnot
      push_neg at hnot
      rw [List.getElem?_eq_none hnot] at hbind
      simp at hbind
    have hmem : e ∈ (execCleaners (applyOpts defaultOptions opts).cleaners sctx).2 := by
      rw [execCleaners, cleanupLoop_errors]
      rw [List.mem_filterMap]
      exact ⟨i, by simp [hi], hbind⟩
    have hne : (execCleaners (applyOpts defaultOptions opts).cleaners sctx).2 ≠ [] := by
      intro h0
      rw [h0] at hmem
      cases hmem
    have h := run_snd taskErr opts sctx
    rw [if_pos (List.length_pos.mpr hne)] at h
    exact ⟨_, h, List.mem_append_right _ hmem⟩

/-- Witness for C3: two cleaners, the earlier-registered one failing; both
indices are invoked and the failure reaches the aggregate. -/
theorem run_failure_isolation_witness :
    0 ∈ (run none
        [Opt.withCleanup (some (fun _ => some (GoError.base "e0"))),
         Opt.withCleanup (some (fun _ => none))] ⟨none⟩).1 ∧
    ∃ l, (run none
        [Opt.withCleanup (some (fun _ => some (GoError.base "e0"))),
         Opt.withCleanup (some (fun _ => none))] ⟨none⟩).2
      = some (GoError.joined l) ∧ GoError.base "e0" ∈ l := by
  constructor
  · exact (run_failure_isolation none
      [Opt.withCleanup (some (fun _ => some (GoError.base "e0"))),
       Opt.withCleanup (some (fun _ => none))] ⟨none⟩ 0 (GoError.base "e0")).1
      (by show 0 < 2; omega)
  · exact (run_failure_isolation none
      [Opt.withCleanup (some (fun _ => some (GoError.base "e0"))),
       Opt.withCleanup (some (fun _ => none))] ⟨none⟩ 0 (GoError.base "e0")).2 rfl

/-- C9: if every registered cleaner returns nil, `Run` returns the task's
result value itself, unchanged — no wrapping or joining. -/
theorem run_preserves_task_error (taskErr : Option GoError) (opts : List Opt) (sctx : Ctx)
    (h : ∀ cp ∈ (applyOpts defaultOptions opts).cleaners, callCleaner cp sctx = none) :
    (run taskErr opts sctx).2 = taskErr := by
  have herr : (execCleaners (applyOpts defaultOptions opts).cleaners sctx).2 = [] := by
    rw [execCleaners, cleanupLoop_errors, List.filterMap_eq_nil_iff]
    intro i _
    cases hget : ((applyOpts defaultOptions opts).cleaners)[i]? with
    | none => simp
    | some c =>
        have hcmem : c ∈ (applyOpts defaultOptions opts).cleaners := List.getElem?_mem hget
        simp [h c hcmem]
  rw [run_snd, herr]
  simp

/-- Witness for C9: failing task, one succeeding cleaner — the identical
task error comes back. -/
theorem run_preserves_task_error_witness :
    (run (some (GoError.base "boom")) [Opt.withCleanup (some (fun _ => none))] ⟨none⟩).2
      = some (GoError.base "boom") := by
  apply run_preserves_task_error
  intro cp hcp
  have hxs : (applyOpts defaultOptions [Opt.withCleanup (some (fun _ => none))]).cleaners
      = [some (fun _ => none)] := rfl
  rw [hxs] at hcp
  rw [List.mem_singleton.mp hcp]
  rfl

/-- C10: nil arguments to `WithLogger`, `WithCleanup` and `WithCloser` are
ignored (the options struct is unchanged in every field); consequently the
configured logger is never nil, and no nil cleaner function is ever placed
in the cleaner list `Run` iterates. -/
theorem nil_option_values_ignored :
    (∀ o : options, applyOpt (.withLogger none) o = o) ∧
    (∀ o : options, applyOpt (.withCleanup none) o = o) ∧
    (∀ o : options, applyOpt (.withCloser none) o = o) ∧
    (∀ opts : List Opt, (applyOpts defaultOptions opts).logger ≠ none) ∧
    (∀ opts : List Opt, ∀ cp ∈ (applyOpts defaultOptions opts).cleaners, cp ≠ none) := by
  refine ⟨fun o => rfl, fun o => rfl, fun o => rfl, ?_, ?_⟩
  · intro opts
    rw [applyOpts_logger]
    cases h : lastLoggerOf opts <;> simp [defaultOptions]
  · intro opts cp hcp
    rw [applyOpts_cleaners] at hcp
    simp only [defaultOptions, List.nil_append] at hcp
    exact cleanersOf_all_some opts cp hcp

/-- Witness for C10 at concrete inputs. -/
theorem nil_option_values_ignored_witness :
    applyOpt (Opt.withLogger none) defaultOptions = defaultOptions ∧
    (applyOpts defaultOptions [Opt.withCleanup (some (fun _ => none))]).logger ≠ none ∧
    (some (fun _ => none) : Option Cleaner) ≠ none := by
  refine ⟨nil_option_values_ignored.1 defaultOptions,
    nil_option_values_ignored.2.2.2.1 [Opt.withCleanup (some (fun _ => none))], ?_⟩
  exact nil_option_values_ignored.2.2.2.2 [Opt.withCleanup (some (fun _ => none))]
    (some (fun _ => none)) (List.mem_singleton.mpr rfl)

/-- C6 counterexample: a later `WithTimeout` does not append to an earlier
one's effect — it replaces it: a lone `WithTimeout 5s` sets the timeout to
5s, yet supplying `WithTimeout 5s` then `WithTimeout 7s` produces a
configuration identical to supplying only `WithTimeout 7s`, with timeout
7s — the earlier option's effect is entirely discarded, refuting "later
options of the same kind append rather than replace" for the timeout kind
(and hence for "every kind of recognized option"). -/
theorem withTimeout_later_replaces_earlier :
    (applyOpts defaultOptions [Opt.withTimeout (5 * timeSecond)]).shutdownTimeout
      = 5 * timeSecond ∧
    applyOpts defaultOptions
        [Opt.withTimeout (5 * timeSecond), Opt.withTimeout (7 * timeSecond)]
      = applyOpts defaultOptions [Opt.withTimeout (7 * timeSecond)] ∧
    (applyOpts defaultOptions
        [Opt.withTimeout (5 * timeSecond), Opt.withTimeout (7 * timeSecond)]).shutdownTimeout
      = 7 * timeSecond :=
  ⟨rfl, rfl, rfl⟩

/-- C6 amended: options are applied in the order supplied; the cleaner
registrations (`WithCleanup`, `WithCloser`, `WithClosers`) accumulate by
appending, while `WithTimeout` and `WithLogger` overwrite their field — the
last supplied (non-nil, for the logger) value wins. -/
theorem options_order_and_accumulation :
    (∀ (o : options) (xs ys : List Opt),
        applyOpts o (xs ++ ys) = applyOpts (applyOpts o xs) ys) ∧
    (∀ (o : options) (opts : List Opt),
        (applyOpts o opts).cleaners = o.cleaners ++ cleanersOf opts) ∧
    (∀ (o : options) (opts : List Opt),
        (applyOpts o opts).shutdownTimeout = (lastTimeoutOf opts).getD o.shutdownTimeout) ∧
    (∀ (o : options) (opts : List Opt),
        (applyOpts o opts).logger =
          (match lastLoggerOf opts with
            | some l => some l
            | none => o.logger)) := by
  refine ⟨?_, ?_, ?_, ?_⟩
  · intro o xs ys
    simp [applyOpts, List.foldl_append]
  · exact fun o opts => applyOpts_cleaners opts o
  · exact fun o opts => applyOpts_shutdownTimeout opts o
  · exact fun o opts => applyOpts_logger opts o

end Graceful
